import Mathlib

/-!
Verification development for the hubcaps REST-client engine and its
resource modules.  The request/response core (credentials, dispatcher,
error classifier, link-header cursor extractor, page stream) is modelled
from the specification; the resource modules (issues, comments, checks,
users, review comments) are embedded from the Rust source.
-/

set_option maxHeartbeats 1600000

/-- A JSON value, the shape of request/response bodies. -/
inductive JsonValue : Type where
  | null : JsonValue
  | bool (b : Bool) : JsonValue
  | num (n : Int) : JsonValue
  | str (s : String) : JsonValue
  | arr (xs : List JsonValue) : JsonValue
  | obj (fields : List (String × JsonValue)) : JsonValue

namespace JsonValue

/-- Look up a field of a JSON object. -/
def getField (j : JsonValue) (k : String) : Option JsonValue :=
  match j with
  | .obj fs => fs.lookup k
  | _ => none

/-- Interpret a JSON value as a string. -/
def asStr : JsonValue → Option String
  | .str s => some s
  | _ => none

/-- Interpret a JSON value as a natural number (non-negative integer). -/
def asNat : JsonValue → Option Nat
  | .num n => if 0 ≤ n then some n.toNat else none
  | _ => none

/-- Interpret a JSON value as a boolean. -/
def asBool : JsonValue → Option Bool
  | .bool b => some b
  | _ => none

/-- Interpret a JSON value as an array of strings. -/
def asStrList : JsonValue → Option (List String)
  | .arr xs => xs.mapM asStr
  | _ => none

end JsonValue

/-- Modelled from the spec: `Credential` is the closed set of
authentication modes of the engine (`lib.rs` is not part of the given
sources): no credential, personal token, OAuth client id/secret, or
installation/app token. -/
inductive Credential : Type where
  | None : Credential
  | Token (secret : String) : Credential
  | Client (id : String) (secret : String) : Credential
  | JWT (token : String) : Credential

/-- Modelled from the spec: per-endpoint policy on which credential kind
may be used.  The spec names `Unconstrained` and endpoint-specific
constraints such as `MustBeApp`. -/
inductive AuthenticationConstraint : Type where
  | Unconstrained : AuthenticationConstraint
  | MustBeApp : AuthenticationConstraint

/-- Modelled from the spec: whether the active credential satisfies an
endpoint's authentication constraint.  `Unconstrained` accepts any
credential or none; `MustBeApp` requires an app-level (JWT) token. -/
def satisfies (c : Credential) : AuthenticationConstraint → Bool
  | .Unconstrained => true
  | .MustBeApp =>
    match c with
    | .JWT _ => true
    | _ => false

/-- `MediaType` from the source modules: stable JSON, or a named preview
representation. -/
inductive MediaType : Type where
  | Json : MediaType
  | Preview (name : String) : MediaType

/-- Modelled from the spec: the structured API error shape a non-2xx body
is opportunistically parsed into (a message plus an optional per-field
error list). -/
structure ApiErrorBody : Type where
  message : String
  errors : Option (List String)

/-- Modelled from the spec: the closed Domain error taxonomy.  `status`
keeps both the opportunistically parsed body and the raw body, so the raw
text is preserved when the structured parse fails. -/
inductive DomainError : Type where
  | transport : DomainError
  | status (code : Nat) (parsed : Option ApiErrorBody) (raw : JsonValue) : DomainError
  | serialization : DomainError
  | constraintViolation : DomainError

/-- Modelled from the spec: opportunistic parse of a non-2xx body into the
structured API error shape.  A missing or non-string `message`, or a
present but ill-shaped `errors` list, makes the whole structured parse
fail (the raw body is then preserved by the classifier). -/
def parseApiError (j : JsonValue) : Option ApiErrorBody :=
  match (j.getField "message").bind JsonValue.asStr with
  | some m =>
    match j.getField "errors" with
    | none => some ⟨m, none⟩
    | some ej =>
      match ej.asStrList with
      | some l => some ⟨m, some l⟩
      | none => none
  | none => none

/-- Modelled from the spec: the outcome of one network exchange as seen by
the Error Classifier: a transport-level failure, or a reached-server
response with a status code and a body. -/
inductive TransportOutcome : Type where
  | failed : TransportOutcome
  | responded (status : Nat) (body : JsonValue) : TransportOutcome

/-- Modelled from the spec: the Error Classifier.  Transport failure maps
to `transport`; a reached-server non-2xx status maps to `status` with the
opportunistically parsed body and the raw body; a 2xx body that does not
match the caller's expected shape maps to `serialization`. -/
def classify {T : Type} (outcome : TransportOutcome) (decode : JsonValue → Option T) :
    Except DomainError T :=
  match outcome with
  | .failed => .error .transport
  | .responded code body =>
    if 200 ≤ code ∧ code < 300 then
      match decode body with
      | some v => .ok v
      | none => .error .serialization
    else
      .error (.status code (parseApiError body) body)

/-- Modelled from the spec: the Request Dispatcher.  The constraint check
happens before the network call: if the active credential cannot satisfy
the endpoint's constraint, `constraintViolation` is returned with zero
network calls; otherwise exactly one round trip is performed and its
outcome is classified.  The second component counts network calls. -/
def dispatch {T : Type} (cred : Credential) (constraint : AuthenticationConstraint)
    (transport : Unit → TransportOutcome) (decode : JsonValue → Option T) :
    Except DomainError T × Nat :=
  if satisfies cred constraint then
    (classify (transport ()) decode, 1)
  else
    (.error .constraintViolation, 0)

/-! ## Cursor Extractor (link-header parsing), modelled from the spec -/

/-- Split a character list at every occurrence of the separator `c`
(the separators are dropped). -/
def splitOnChar (c : Char) : List Char → List (List Char)
  | [] => [[]]
  | a :: rest =>
    let r := splitOnChar c rest
    if a = c then
      [] :: r
    else
      match r with
      | h :: t => (a :: h) :: t
      | [] => [[a]]

/-- Drop leading spaces. -/
def trimLeftChars (l : List Char) : List Char := l.dropWhile (· = ' ')

/-- Drop trailing spaces. -/
def trimRightChars (l : List Char) : List Char :=
  (l.reverse.dropWhile (· = ' ')).reverse

/-- Drop leading and trailing spaces. -/
def trimChars (l : List Char) : List Char := trimRightChars (trimLeftChars l)

/-- Modelled from the spec: parse one `rel="name"` parameter of a
link-header entry; anything else yields `none`. -/
def parseRelParam (p : List Char) : Option String :=
  match trimChars p with
  | 'r' :: 'e' :: 'l' :: '=' :: '"' :: rest =>
    if rest.getLast? = some '"' then some (String.mk rest.dropLast) else none
  | _ => none

/-- Modelled from the spec: parse one link-header entry of the form
`<url>; rel="name"` into a `(relation, url)` pair.  A malformed entry
yields `none`. -/
def parseEntryChars (e : List Char) : Option (String × String) :=
  match splitOnChar ';' e with
  | urlPart :: params =>
    match trimChars urlPart with
    | '<' :: t =>
      if t.getLast? = some '>' then
        match params.filterMap parseRelParam with
        | r :: _ => some (r, String.mk t.dropLast)
        | [] => none
      else none
    | _ => none
  | [] => none

/-- Modelled from the spec: the Cursor Extractor.  Parse a structured link
header `<url1>; rel="next", <url2>; rel="last", ...` into a mapping from
relation name to URL; malformed entries are skipped individually. -/
def parseLinkHeader (s : String) : List (String × String) :=
  (splitOnChar ',' s.data).filterMap parseEntryChars

/-- Modelled from the spec: extract the `next` relation's URL from an
optional link header.  Absence of the header or of a `next` relation is
the normal "no further pages" signal. -/
def extractNext (h : Option String) : Option String :=
  h.bind fun s => (parseLinkHeader s).lookup "next"

/-! ## Page Stream, modelled from the spec -/

/-- Modelled from the spec: what the server returns for one page fetch:
either a Domain error, or a page of items together with the optional raw
link header of the response. -/
inductive FetchResult (α : Type) : Type where
  | failure (e : DomainError) : FetchResult α
  | page (items : List α) (linkHeader : Option String) : FetchResult α

/-- Modelled from the spec: the server as seen through the Dispatcher:
every page URL is answered by a fetch result. -/
def Server (α : Type) : Type := String → FetchResult α

/-- Modelled from the spec: the Page Stream state: the buffered,
already-fetched items with their read cursor, and the optional
next-page URL. -/
structure StreamState (α : Type) : Type where
  buffer : List α
  next : Option String

/-- The outcome of one pull on a Page Stream. -/
inductive PullResult (α : Type) : Type where
  | item (a : α) : PullResult α
  | done : PullResult α
  | err (e : DomainError) : PullResult α

/-- Modelled from the spec: one pull on a Page Stream.  A pull (a) returns
the next buffered item with no I/O, or (b) if the buffer is exhausted and
a next-page URL is known, fetches that page, replaces the buffer,
extracts the new next-page URL from the response's link header and then
proceeds as in (a), or (c) if the buffer is exhausted and no next-page
URL is known, signals end-of-sequence.  A fetch failure propagates the
Domain error and leaves the stream exhausted.  `fuel` bounds the chase
through empty pages; the last component counts the page fetches performed
by this pull. -/
def pull {α : Type} (server : Server α) :
    Nat → StreamState α → PullResult α × StreamState α × Nat
  | _, ⟨a :: rest, nx⟩ => (.item a, ⟨rest, nx⟩, 0)
  | _, ⟨[], none⟩ => (.done, ⟨[], none⟩, 0)
  | fuel, ⟨[], some url⟩ =>
    match server url with
    | .failure e => (.err e, ⟨[], none⟩, 1)
    | .page (a :: rest) hdr => (.item a, ⟨rest, extractNext hdr⟩, 1)
    | .page [] hdr =>
      match fuel with
      | 0 => (.done, ⟨[], extractNext hdr⟩, 1)
      | f + 1 =>
        let r := pull server f ⟨[], extractNext hdr⟩
        (r.1, r.2.1, r.2.2 + 1)

/-- Perform `k` pulls on a Page Stream, returning the final state and the
total number of page fetches performed. -/
def pullN {α : Type} (server : Server α) (fuel : Nat) :
    Nat → StreamState α → StreamState α × Nat
  | 0, s => (s, 0)
  | k + 1, s =>
    let r := pull server fuel s
    let q := pullN server fuel k r.2.1
    (q.1, r.2.2 + q.2)

/-- Pull a Page Stream up to `k` times, collecting the yielded items until
the stream signals end-of-sequence or an error; returns the items in
yield order, the propagated error (if any) and the total number of page
fetches performed. -/
def drain {α : Type} (server : Server α) (fuel : Nat) :
    Nat → StreamState α → List α × Option DomainError × Nat
  | 0, _ => ([], none, 0)
  | k + 1, s =>
    match pull server fuel s with
    | (.item a, s', n) =>
      let q := drain server fuel k s'
      (a :: q.1, q.2.1, n + q.2.2)
    | (.done, _, n) => ([], none, n)
    | (.err e, _, n) => ([], some e, n)

/-! ## A family of well-behaved servers used to state the pagination
properties: page `i` is addressed by an opaque URL and carries a link
header pointing at page `i + 1`, except for the last page. -/

/-- The opaque URL of page `i` (a unary encoding, so that distinct pages
have distinct URLs). -/
def unaryUrl (i : Nat) : String := String.mk ('u' :: List.replicate i 'x')

/-- Decode a page URL back to its page number; `none` for any string that
is not a page URL. -/
def urlIndex (s : String) : Option Nat :=
  match s.data with
  | 'u' :: rest => if rest.all (· = 'x') then some rest.length else none
  | _ => none

/-- The raw link header naming page `i` as the `next` page. -/
def mkNextHeader (i : Nat) : String := "<" ++ unaryUrl i ++ ">; rel=\"next\""

/-- The server holding the page sequence `pages`: page `i` answers with
its items and, unless it is the last page, a link header whose `next`
relation is the URL of page `i + 1`.  The last page carries no `next`
relation. -/
def pagesServer {α : Type} (pages : List (List α)) : Server α := fun url =>
  match urlIndex url with
  | some i =>
    if h : i < pages.length then
      .page pages[i]
        (if i + 1 < pages.length then some (mkNextHeader (i + 1)) else none)
    else .failure .transport
  | none => .failure .transport

/-- The next-page URL as held by the stream when it is about to read page
`i` of a sequence of `len` pages: the URL of page `i`, or nothing once
all pages are consumed. -/
def nextOf (len i : Nat) : Option String :=
  if i < len then some (unaryUrl i) else none

/-! ## Resource modules (embedded from the Rust source) -/

/-- Rust's `Vec::join(sep)` on strings. -/
def joinSep (sep : String) : List String → String
  | [] => ""
  | [x] => x
  | x :: xs => x ++ sep ++ joinSep sep xs

/-- Characters the `form_urlencoded` serializer leaves unescaped. -/
def isUrlSafe (c : Char) : Bool :=
  c.isAlphanum || c = '*' || c = '-' || c = '.' || c = '_'

/-- The hexadecimal digit for `n < 16` (upper case). -/
def hexDigitChar (n : Nat) : Char :=
  if n < 10 then Char.ofNat ('0'.toNat + n) else Char.ofNat ('A'.toNat + (n - 10))

/-- Encoding of one character under `form_urlencoded`: safe characters
pass through, a space becomes `+`, anything else is percent-escaped. -/
def encodeFormChar (c : Char) : List Char :=
  if isUrlSafe c then [c]
  else if c = ' ' then ['+']
  else ['%', hexDigitChar (c.toNat / 16 % 16), hexDigitChar (c.toNat % 16)]

/-- `form_urlencoded` encoding of one string. -/
def urlencodeStr (s : String) : String := String.mk (s.data.flatMap encodeFormChar)

/-- `form_urlencoded::Serializer::extend_pairs(..).finish()`: the pairs as
`key=value`, joined with `&`, both sides encoded. -/
def urlencodePairs (l : List (String × String)) : String :=
  joinSep "&" (l.map fun p => urlencodeStr p.1 ++ "=" ++ urlencodeStr p.2)

/-- `HashMap::insert` on the params map, modelled as an association list:
replace the value under an existing key, otherwise append the pair. -/
def insertKV (k v : String) (l : List (String × String)) : List (String × String) :=
  if l.any (fun p => p.1 == k) then
    l.map (fun p => if p.1 == k then (k, v) else p)
  else l ++ [(k, v)]

/-- `issues::State` (issue state filter). -/
inductive State : Type where
  | Open : State
  | Closed : State
  | All : State

/-- The `Display` rendering of `issues::State`. -/
def State.display : State → String
  | .Open => "open"
  | .Closed => "closed"
  | .All => "all"

/-- `issues::Sort` (issue sort key); named `IssueSort` because `Sort` is
reserved in Lean. -/
inductive IssueSort : Type where
  | Created : IssueSort
  | Updated : IssueSort
  | Comments : IssueSort

/-- The `Display` rendering of `issues::Sort`. -/
def IssueSort.display : IssueSort → String
  | .Created => "created"
  | .Updated => "updated"
  | .Comments => "comments"

/-- Modelled from the spec: `SortDirection` lives in the engine core
(`lib.rs`, not part of the given sources); ascending or descending. -/
inductive SortDirection : Type where
  | Asc : SortDirection
  | Desc : SortDirection

/-- The `Display` rendering of `SortDirection`. -/
def SortDirection.display : SortDirection → String
  | .Asc => "asc"
  | .Desc => "desc"

/-- `IssueListOptions`: the params map for issue list queries. -/
structure IssueListOptions : Type where
  params : List (String × String) := []

/-- `IssueListOptions::serialize`: `None` if no options are defined,
otherwise the url-encoded query string. -/
def IssueListOptions.serialize (o : IssueListOptions) : Option String :=
  if o.params.isEmpty then none else some (urlencodePairs o.params)

/-- `IssueListOptionsBuilder` (wraps an options value under construction). -/
structure IssueListOptionsBuilder : Type where
  opts : IssueListOptions := {}

namespace IssueListOptionsBuilder

/-- `IssueListOptionsBuilder::state`. -/
def state (b : IssueListOptionsBuilder) (s : State) : IssueListOptionsBuilder :=
  ⟨⟨insertKV "state" s.display b.opts.params⟩⟩

/-- `IssueListOptionsBuilder::sort`. -/
def sort (b : IssueListOptionsBuilder) (s : IssueSort) : IssueListOptionsBuilder :=
  ⟨⟨insertKV "sort" s.display b.opts.params⟩⟩

/-- `IssueListOptionsBuilder::direction`. -/
def direction (b : IssueListOptionsBuilder) (d : SortDirection) : IssueListOptionsBuilder :=
  ⟨⟨insertKV "direction" d.display b.opts.params⟩⟩

/-- `IssueListOptionsBuilder::asc`. -/
def asc (b : IssueListOptionsBuilder) : IssueListOptionsBuilder :=
  b.direction .Asc

/-- `IssueListOptionsBuilder::desc`. -/
def desc (b : IssueListOptionsBuilder) : IssueListOptionsBuilder :=
  b.direction .Desc

/-- `IssueListOptionsBuilder::assignee`. -/
def assignee (b : IssueListOptionsBuilder) (a : String) : IssueListOptionsBuilder :=
  ⟨⟨insertKV "assignee" a b.opts.params⟩⟩

/-- `IssueListOptionsBuilder::creator`. -/
def creator (b : IssueListOptionsBuilder) (c : String) : IssueListOptionsBuilder :=
  ⟨⟨insertKV "creator" c b.opts.params⟩⟩

/-- `IssueListOptionsBuilder::mentioned`. -/
def mentioned (b : IssueListOptionsBuilder) (m : String) : IssueListOptionsBuilder :=
  ⟨⟨insertKV "mentioned" m b.opts.params⟩⟩

/-- `IssueListOptionsBuilder::labels` (comma-joined). -/
def labels (b : IssueListOptionsBuilder) (ls : List String) : IssueListOptionsBuilder :=
  ⟨⟨insertKV "labels" (joinSep "," ls) b.opts.params⟩⟩

/-- `IssueListOptionsBuilder::since`. -/
def since (b : IssueListOptionsBuilder) (s : String) : IssueListOptionsBuilder :=
  ⟨⟨insertKV "since" s b.opts.params⟩⟩

/-- `IssueListOptionsBuilder::per_page`. -/
def per_page (b : IssueListOptionsBuilder) (n : Nat) : IssueListOptionsBuilder :=
  ⟨⟨insertKV "per_page" (toString n) b.opts.params⟩⟩

/-- `IssueListOptionsBuilder::build`. -/
def build (b : IssueListOptionsBuilder) : IssueListOptions := b.opts

end IssueListOptionsBuilder

/-- One setter call on an `IssueListOptionsBuilder`. -/
inductive IssueListOp : Type where
  | state (s : State) : IssueListOp
  | sort (s : IssueSort) : IssueListOp
  | asc : IssueListOp
  | desc : IssueListOp
  | direction (d : SortDirection) : IssueListOp
  | assignee (a : String) : IssueListOp
  | creator (c : String) : IssueListOp
  | mentioned (m : String) : IssueListOp
  | labels (ls : List String) : IssueListOp
  | since (s : String) : IssueListOp
  | per_page (n : Nat) : IssueListOp

/-- Apply one setter call to an `IssueListOptionsBuilder`. -/
def applyIssueListOp (b : IssueListOptionsBuilder) : IssueListOp → IssueListOptionsBuilder
  | .state s => b.state s
  | .sort s => b.sort s
  | .asc => b.asc
  | .desc => b.desc
  | .direction d => b.direction d
  | .assignee a => b.assignee a
  | .creator c => b.creator c
  | .mentioned m => b.mentioned m
  | .labels ls => b.labels ls
  | .since s => b.since s
  | .per_page n => b.per_page n

/-- `Issues::path`. -/
def Issues.path (owner repo more : String) : String :=
  "/repos/" ++ owner ++ "/" ++ repo ++ "/issues" ++ more

/-- The URI handed to the core by `Issues::list`: the path, then the
serialized query pushed if present, joined with `?`. -/
def Issues.listUri (owner repo : String) (options : IssueListOptions) : String :=
  joinSep "?" ([Issues.path owner repo ""] ++
    (match options.serialize with
     | some query => [query]
     | none => []))

/-- The URI handed to the core by `Issues::iter` (same construction as
`Issues::list`, handed to `get_stream`). -/
def Issues.iterUri (owner repo : String) (options : IssueListOptions) : String :=
  joinSep "?" ([Issues.path owner repo ""] ++
    (match options.serialize with
     | some query => [query]
     | none => []))

/-- `CommentListOptions`. -/
structure CommentListOptions : Type where
  params : List (String × String) := []

/-- `CommentListOptions::serialize`. -/
def CommentListOptions.serialize (o : CommentListOptions) : Option String :=
  if o.params.isEmpty then none else some (urlencodePairs o.params)

/-- `CommentListOptionsBuilder`. -/
structure CommentListOptionsBuilder : Type where
  opts : CommentListOptions := {}

/-- `CommentListOptionsBuilder::per_page`. -/
def CommentListOptionsBuilder.per_page (b : CommentListOptionsBuilder) (n : Nat) :
    CommentListOptionsBuilder :=
  ⟨⟨insertKV "per_page" (toString n) b.opts.params⟩⟩

/-- `CommentListOptionsBuilder::since`. -/
def CommentListOptionsBuilder.since (b : CommentListOptionsBuilder) (s : String) :
    CommentListOptionsBuilder :=
  ⟨⟨insertKV "since" s b.opts.params⟩⟩

/-- `CommentListOptionsBuilder::build`. -/
def CommentListOptionsBuilder.build (b : CommentListOptionsBuilder) : CommentListOptions :=
  b.opts

/-- One setter call on a `CommentListOptionsBuilder`. -/
inductive CommentListOp : Type where
  | per_page (n : Nat) : CommentListOp
  | since (s : String) : CommentListOp

/-- Apply one setter call to a `CommentListOptionsBuilder`. -/
def applyCommentListOp (b : CommentListOptionsBuilder) : CommentListOp → CommentListOptionsBuilder
  | .per_page n => b.per_page n
  | .since s => b.since s

/-- `Comments::path`. -/
def Comments.path (owner repo : String) (number : Nat) : String :=
  "/repos/" ++ owner ++ "/" ++ repo ++ "/issues/" ++ toString number ++ "/comments"

/-- The URI handed to the core by `Comments::list`. -/
def Comments.listUri (owner repo : String) (number : Nat) (options : CommentListOptions) :
    String :=
  joinSep "?" ([Comments.path owner repo number] ++
    (match options.serialize with
     | some query => [query]
     | none => []))

/-- The URI handed to the core by `Comments::iter` (handed to `get_stream`). -/
def Comments.iterUri (owner repo : String) (number : Nat) (options : CommentListOptions) :
    String :=
  joinSep "?" ([Comments.path owner repo number] ++
    (match options.serialize with
     | some query => [query]
     | none => []))

/-- `ReviewCommentListOptions`. -/
structure ReviewCommentListOptions : Type where
  params : List (String × String) := []

/-- `ReviewCommentListOptions::serialize`. -/
def ReviewCommentListOptions.serialize (o : ReviewCommentListOptions) : Option String :=
  if o.params.isEmpty then none else some (urlencodePairs o.params)

/-- `ReviewCommentListOptionsBuilder`. -/
structure ReviewCommentListOptionsBuilder : Type where
  opts : ReviewCommentListOptions := {}

/-- `ReviewCommentListOptionsBuilder::per_page`. -/
def ReviewCommentListOptionsBuilder.per_page (b : ReviewCommentListOptionsBuilder) (n : Nat) :
    ReviewCommentListOptionsBuilder :=
  ⟨⟨insertKV "per_page" (toString n) b.opts.params⟩⟩

/-- `ReviewCommentListOptionsBuilder::since`. -/
def ReviewCommentListOptionsBuilder.since (b : ReviewCommentListOptionsBuilder) (s : String) :
    ReviewCommentListOptionsBuilder :=
  ⟨⟨insertKV "since" s b.opts.params⟩⟩

/-- `ReviewCommentListOptionsBuilder::build`. -/
def ReviewCommentListOptionsBuilder.build (b : ReviewCommentListOptionsBuilder) :
    ReviewCommentListOptions :=
  b.opts

/-- One setter call on a `ReviewCommentListOptionsBuilder`. -/
inductive ReviewCommentListOp : Type where
  | per_page (n : Nat) : ReviewCommentListOp
  | since (s : String) : ReviewCommentListOp

/-- Apply one setter call to a `ReviewCommentListOptionsBuilder`. -/
def applyReviewCommentListOp (b : ReviewCommentListOptionsBuilder) :
    ReviewCommentListOp → ReviewCommentListOptionsBuilder
  | .per_page n => b.per_page n
  | .since s => b.since s

/-- `ReviewComments::path`. -/
def ReviewComments.path (owner repo : String) (number : Nat) : String :=
  "/repos/" ++ owner ++ "/" ++ repo ++ "/pulls/" ++ toString number ++ "/comments"

/-- The URI handed to the core by `ReviewComments::list`. -/
def ReviewComments.listUri (owner repo : String) (number : Nat)
    (options : ReviewCommentListOptions) : String :=
  joinSep "?" ([ReviewComments.path owner repo number] ++
    (match options.serialize with
     | some query => [query]
     | none => []))

/-- The URI handed to the core by `ReviewComments::iter`. -/
def ReviewComments.iterUri (owner repo : String) (number : Nat)
    (options : ReviewCommentListOptions) : String :=
  joinSep "?" ([ReviewComments.path owner repo number] ++
    (match options.serialize with
     | some query => [query]
     | none => []))

/-- `CheckSuiteListOptions`. -/
structure CheckSuiteListOptions : Type where
  params : List (String × String) := []

/-- `CheckSuiteListOptions::serialize`. -/
def CheckSuiteListOptions.serialize (o : CheckSuiteListOptions) : Option String :=
  if o.params.isEmpty then none else some (urlencodePairs o.params)

/-- `CheckSuiteListOptionsBuilder`. -/
structure CheckSuiteListOptionsBuilder : Type where
  opts : CheckSuiteListOptions := {}

/-- `CheckSuiteListOptionsBuilder::per_page`. -/
def CheckSuiteListOptionsBuilder.per_page (b : CheckSuiteListOptionsBuilder) (n : Nat) :
    CheckSuiteListOptionsBuilder :=
  ⟨⟨insertKV "per_page" (toString n) b.opts.params⟩⟩

/-- `CheckSuiteListOptionsBuilder::since`. -/
def CheckSuiteListOptionsBuilder.since (b : CheckSuiteListOptionsBuilder) (s : String) :
    CheckSuiteListOptionsBuilder :=
  ⟨⟨insertKV "since" s b.opts.params⟩⟩

/-- `CheckSuiteListOptionsBuilder::build`. -/
def CheckSuiteListOptionsBuilder.build (b : CheckSuiteListOptionsBuilder) :
    CheckSuiteListOptions :=
  b.opts

/-- One setter call on a `CheckSuiteListOptionsBuilder`. -/
inductive CheckSuiteListOp : Type where
  | per_page (n : Nat) : CheckSuiteListOp
  | since (s : String) : CheckSuiteListOp

/-- Apply one setter call to a `CheckSuiteListOptionsBuilder`. -/
def applyCheckSuiteListOp (b : CheckSuiteListOptionsBuilder) :
    CheckSuiteListOp → CheckSuiteListOptionsBuilder
  | .per_page n => b.per_page n
  | .since s => b.since s

/-! ## Issue mutation options and the close/open shorthands (issues.rs) -/

/-- JSON string escaping (quotes and backslashes). -/
def jsonEscape (s : String) : String :=
  String.mk (s.data.flatMap fun c =>
    if c = '"' then ['\\', '"']
    else if c = '\\' then ['\\', '\\']
    else [c])

/-- A JSON string literal. -/
def jsonStrLit (s : String) : String := "\"" ++ jsonEscape s ++ "\""

/-- `IssueOptions` with its `Default` values. -/
structure IssueOptions : Type where
  title : String := ""
  body : Option String := none
  assignee : Option String := none
  milestone : Option Nat := none
  labels : List String := []
  state : Option String := none

/-- The serde serialization of `IssueOptions`: fields in declaration
order, where `title` is skipped when empty (`String::is_empty`), `body`,
`assignee`, `milestone` and `state` are skipped when `None`
(`Option::is_none`), and `labels` is skipped when empty
(`Vec::is_empty`). -/
def IssueOptions.serializeJson (o : IssueOptions) : String :=
  let fs : List String :=
    (if o.title.isEmpty then [] else [jsonStrLit "title" ++ ":" ++ jsonStrLit o.title]) ++
    (match o.body with
     | some b => [jsonStrLit "body" ++ ":" ++ jsonStrLit b]
     | none => []) ++
    (match o.assignee with
     | some a => [jsonStrLit "assignee" ++ ":" ++ jsonStrLit a]
     | none => []) ++
    (match o.milestone with
     | some m => [jsonStrLit "milestone" ++ ":" ++ toString m]
     | none => []) ++
    (if o.labels.isEmpty then []
     else [jsonStrLit "labels" ++ ":" ++ "[" ++ joinSep "," (o.labels.map jsonStrLit) ++ "]"]) ++
    (match o.state with
     | some s => [jsonStrLit "state" ++ ":" ++ jsonStrLit s]
     | none => [])
  "\x7b" ++ joinSep "," fs ++ "\x7d"

/-- An HTTP method. -/
inductive HttpMethod : Type where
  | GET : HttpMethod
  | POST : HttpMethod
  | PATCH : HttpMethod
  | PUT : HttpMethod
  | DELETE : HttpMethod

/-- The request a resource-module call hands to the core. -/
structure RequestModel : Type where
  method : HttpMethod
  path : String
  body : String

/-- `IssueRef::path`. -/
def IssueRef.path (owner repo : String) (number : Nat) (more : String) : String :=
  "/repos/" ++ owner ++ "/" ++ repo ++ "/issues/" ++ toString number ++ more

/-- `IssueRef::edit`: PATCH the issue path with the serialized options. -/
def IssueRef.edit (owner repo : String) (number : Nat) (is : IssueOptions) : RequestModel :=
  ⟨.PATCH, IssueRef.path owner repo number "", is.serializeJson⟩

/-- `IssueRef::close`: build a default `IssueOptions`, set
`state = Some("closed")`, and call `edit`. -/
def IssueRef.close (owner repo : String) (number : Nat) : RequestModel :=
  let o : IssueOptions := { ({} : IssueOptions) with state := some "closed" }
  IssueRef.edit owner repo number o

/-- `IssueRef::open` (named `openIssue` because `open` is reserved in
Lean): build a default `IssueOptions`, set `state = Some("open")`, and
call `edit`. -/
def IssueRef.openIssue (owner repo : String) (number : Nat) : RequestModel :=
  let o : IssueOptions := { ({} : IssueOptions) with state := some "open" }
  IssueRef.edit owner repo number o

/-! ## CheckRuns::create and CheckRuns::update (checks.rs) -/

/-- `CheckRuns` (owner and repo of the checks handle). -/
structure CheckRuns : Type where
  owner : String
  repo : String

/-- `CheckRuns::path`. -/
def CheckRuns.path (c : CheckRuns) (more : String) : String :=
  "/repos/" ++ c.owner ++ "/" ++ c.repo ++ "/check-runs" ++ more

/-- What a `CheckRuns` call turns into: either a `post_media` dispatch of
a serialized body, or an immediate error future carrying the
serialization failure (no dispatch). -/
inductive CheckCall : Type where
  | dispatchMedia (path : String) (body : String) (media : MediaType)
      (constraint : AuthenticationConstraint) : CheckCall
  | failSer (e : String) : CheckCall

/-- The number of network dispatches a `CheckCall` performs. -/
def networkDispatches : CheckCall → Nat
  | .dispatchMedia _ _ _ _ => 1
  | .failSer _ => 0

/-- `CheckRuns::create`: match on the outcome of serializing the options
payload; on `Ok(data)` dispatch `post_media` to the check-runs path with
the `antiope` preview media type and the unconstrained authentication
constraint, on `Err(e)` return the error future immediately. -/
def CheckRuns.create (c : CheckRuns) (ser : Except String String) : CheckCall :=
  match ser with
  | .ok data => .dispatchMedia (c.path "") data (.Preview "antiope") .Unconstrained
  | .error e => .failSer e

/-- `CheckRuns::update`: match on the outcome of serializing the options
payload; on `Ok(data)` dispatch `post_media` to the check-run's path, on
`Err(e)` return the error future immediately. -/
def CheckRuns.update (c : CheckRuns) (check_run_id : String)
    (ser : Except String String) : CheckCall :=
  match ser with
  | .ok data =>
    .dispatchMedia (c.path ("/" ++ check_run_id)) data (.Preview "antiope") .Unconstrained
  | .error e => .failSer e

/-! ## Users and the null-coalescing deserializers (users.rs, checks.rs) -/

/-- `User` with its `Default` values. -/
structure User : Type where
  login : String := ""
  id : Nat := 0
  avatar_url : String := ""
  gravatar_id : String := ""
  url : String := ""
  html_url : String := ""
  followers_url : String := ""
  following_url : String := ""
  gists_url : String := ""
  starred_url : String := ""
  subscriptions_url : String := ""
  organizations_url : String := ""
  repos_url : String := ""
  events_url : String := ""
  received_events_url : String := ""
  site_admin : Bool := false

instance : Inhabited User := ⟨{}⟩

/-- The serde-derived `User::deserialize`: every field is required and
must have the right JSON type; otherwise deserialization fails. -/
def decodeUser (j : JsonValue) : Except String User :=
  match
    (do
      let login ← (j.getField "login").bind JsonValue.asStr
      let id ← (j.getField "id").bind JsonValue.asNat
      let avatar_url ← (j.getField "avatar_url").bind JsonValue.asStr
      let gravatar_id ← (j.getField "gravatar_id").bind JsonValue.asStr
      let url ← (j.getField "url").bind JsonValue.asStr
      let html_url ← (j.getField "html_url").bind JsonValue.asStr
      let followers_url ← (j.getField "followers_url").bind JsonValue.asStr
      let following_url ← (j.getField "following_url").bind JsonValue.asStr
      let gists_url ← (j.getField "gists_url").bind JsonValue.asStr
      let starred_url ← (j.getField "starred_url").bind JsonValue.asStr
      let subscriptions_url ← (j.getField "subscriptions_url").bind JsonValue.asStr
      let organizations_url ← (j.getField "organizations_url").bind JsonValue.asStr
      let repos_url ← (j.getField "repos_url").bind JsonValue.asStr
      let events_url ← (j.getField "events_url").bind JsonValue.asStr
      let received_events_url ← (j.getField "received_events_url").bind JsonValue.asStr
      let site_admin ← (j.getField "site_admin").bind JsonValue.asBool
      pure (⟨login, id, avatar_url, gravatar_id, url, html_url, followers_url,
        following_url, gists_url, starred_url, subscriptions_url, organizations_url,
        repos_url, events_url, received_events_url, site_admin⟩ : User) : Option User)
  with
  | some u => .ok u
  | none => .error "invalid User"

/-- `deserialize_null_user::deserialize` (users.rs): deserialize a `User`,
replacing any failure by `User::default()`, and return `Ok`. -/
def deserialize_null_user.deserialize (j : JsonValue) : Except String User :=
  let s : User :=
    match decodeUser j with
    | .ok u => u
    | .error _ => default
  .ok s

/-- The serde `String::deserialize`: the value must be a JSON string. -/
def decodeString (j : JsonValue) : Except String String :=
  match j.asStr with
  | some s => .ok s
  | none => .error "invalid string"

/-- `deserialize_null_string::deserialize` (checks.rs): deserialize a
string, replacing any failure by the empty string, and return `Ok`. -/
def deserialize_null_string.deserialize (j : JsonValue) : Except String String :=
  let s : String :=
    match decodeString j with
    | .ok s => s
    | .error _ => ""
  .ok s

/-- The serde `u32::deserialize`: the value must be a JSON number in the
`u32` range. -/
def decodeU32 (j : JsonValue) : Except String Nat :=
  match j with
  | .num n => if 0 ≤ n ∧ n < 4294967296 then .ok n.toNat else .error "invalid u32"
  | _ => .error "invalid u32"

/-- `deserialize_null_u32::deserialize` (checks.rs): deserialize a `u32`,
replacing any failure by `0`, and return `Ok`. -/
def deserialize_null_u32.deserialize (j : JsonValue) : Except String Nat :=
  let s : Nat :=
    match decodeU32 j with
    | .ok n => n
    | .error _ => 0
  .ok s

/-- Whether an `Except` value is `ok`. -/
def exceptIsOk {ε α : Type} : Except ε α → Bool
  | .ok _ => true
  | .error _ => false

/-! ## Lemmas about the cursor extractor -/

theorem splitOnChar_not_mem {c : Char} : ∀ {l : List Char}, c ∉ l → splitOnChar c l = [l]
  | [], _ => rfl
  | a :: rest, h => by
    have ha : ¬a = c := fun hac => h (hac ▸ List.mem_cons_self a rest)
    have hr : c ∉ rest := fun hm => h (List.mem_cons_of_mem a hm)
    simp only [splitOnChar, if_neg ha, splitOnChar_not_mem hr]

theorem splitOnChar_append {c : Char} : ∀ {l₁ : List Char} (l₂ : List Char), c ∉ l₁ →
    splitOnChar c (l₁ ++ c :: l₂) = l₁ :: splitOnChar c l₂
  | [], l₂, _ => by
    simp [splitOnChar]
  | a :: t, l₂, h => by
    have ha : ¬a = c := fun hac => h (hac ▸ List.mem_cons_self a t)
    have ht : c ∉ t := fun hm => h (List.mem_cons_of_mem a hm)
    have ih := @splitOnChar_append c t l₂ ht
    simp only [List.cons_append, splitOnChar, if_neg ha]
    rw [List.append_eq, ih]

theorem dropWhile_space_of_not_mem : ∀ {l : List Char}, ' ' ∉ l →
    l.dropWhile (· = ' ') = l
  | [], _ => rfl
  | a :: t, h => by
    have ha : ¬a = ' ' := fun hac => h (hac ▸ List.mem_cons_self a t)
    simp [List.dropWhile, ha]

theorem trimChars_of_not_mem {l : List Char} (h : ' ' ∉ l) : trimChars l = l := by
  have h' : ' ' ∉ l.reverse := fun hm => h (List.mem_reverse.mp hm)
  simp only [trimChars, trimLeftChars, trimRightChars, dropWhile_space_of_not_mem h]
  rw [dropWhile_space_of_not_mem h', List.reverse_reverse]

theorem parseEntryChars_next (u : String) (hs : ';' ∉ u.data) (hsp : ' ' ∉ u.data) :
    parseEntryChars
      (('<' :: (u.data ++ ['>'])) ++ ';' :: [' ', 'r', 'e', 'l', '=', '"', 'n', 'e', 'x', 't', '"']) =
      some ("next", u) := by
  have h1 : ';' ∉ '<' :: (u.data ++ ['>']) := by
    intro hm
    rcases List.mem_cons.mp hm with h | h
    · exact absurd h (by decide)
    · rcases List.mem_append.mp h with h | h
      · exact hs h
      · exact absurd (List.mem_singleton.mp h) (by decide)
  have h2 : ' ' ∉ '<' :: (u.data ++ ['>']) := by
    intro hm
    rcases List.mem_cons.mp hm with h | h
    · exact absurd h (by decide)
    · rcases List.mem_append.mp h with h | h
      · exact hsp h
      · exact absurd (List.mem_singleton.mp h) (by decide)
  have hmk : String.mk u.data = u := by cases u; rfl
  unfold parseEntryChars
  rw [splitOnChar_append _ h1,
    splitOnChar_not_mem
      (by decide : ';' ∉ [' ', 'r', 'e', 'l', '=', '"', 'n', 'e', 'x', 't', '"'])]
  simp only [trimChars_of_not_mem h2]
  rw [List.getLast?_concat]
  simp only [if_pos rfl, List.filterMap]
  have hrel : parseRelParam [' ', 'r', 'e', 'l', '=', '"', 'n', 'e', 'x', 't', '"'] =
      some "next" := by decide
  rw [hrel]
  simp [List.dropLast_concat, hmk]

theorem parseLinkHeader_mkNext (u : String) (hc : ',' ∉ u.data) (hs : ';' ∉ u.data)
    (hsp : ' ' ∉ u.data) :
    parseLinkHeader ("<" ++ u ++ ">; rel=\"next\"") = [("next", u)] := by
  have hdata : ("<" ++ u ++ ">; rel=\"next\"").data =
      ('<' :: (u.data ++ ['>'])) ++ ';' :: [' ', 'r', 'e', 'l', '=', '"', 'n', 'e', 'x', 't', '"'] := by
    rw [String.data_append, String.data_append]
    show (['<'] ++ u.data) ++ ['>', ';', ' ', 'r', 'e', 'l', '=', '"', 'n', 'e', 'x', 't', '"'] = _
    simp
  have hwhole : ',' ∉
      ('<' :: (u.data ++ ['>'])) ++ ';' :: [' ', 'r', 'e', 'l', '=', '"', 'n', 'e', 'x', 't', '"'] := by
    intro hm
    rcases List.mem_append.mp hm with h | h
    · rcases List.mem_cons.mp h with h | h
      · exact absurd h (by decide)
      · rcases List.mem_append.mp h with h | h
        · exact hc h
        · exact absurd (List.mem_singleton.mp h) (by decide)
    · exact absurd h (by decide)
  unfold parseLinkHeader
  rw [hdata, splitOnChar_not_mem hwhole]
  simp only [List.filterMap]
  rw [parseEntryChars_next u hs hsp]

theorem mem_unaryUrl_data {ch : Char} {i : Nat} (h : ch ∈ (unaryUrl i).data) :
    ch = 'u' ∨ ch = 'x' := by
  have hd : (unaryUrl i).data = 'u' :: List.replicate i 'x' := rfl
  rw [hd] at h
  rcases List.mem_cons.mp h with h | h
  · exact Or.inl h
  · exact Or.inr (List.eq_of_mem_replicate h)

theorem extractNext_mkNextHeader (i : Nat) :
    extractNext (some (mkNextHeader i)) = some (unaryUrl i) := by
  have hc : ',' ∉ (unaryUrl i).data := by
    intro hm; rcases mem_unaryUrl_data hm with h | h <;> exact absurd h (by decide)
  have hs : ';' ∉ (unaryUrl i).data := by
    intro hm; rcases mem_unaryUrl_data hm with h | h <;> exact absurd h (by decide)
  have hsp : ' ' ∉ (unaryUrl i).data := by
    intro hm; rcases mem_unaryUrl_data hm with h | h <;> exact absurd h (by decide)
  show ((parseLinkHeader ("<" ++ unaryUrl i ++ ">; rel=\"next\"")).lookup "next") = _
  rw [parseLinkHeader_mkNext _ hc hs hsp]
  simp [List.lookup]

theorem urlIndex_unaryUrl (i : Nat) : urlIndex (unaryUrl i) = some i := by
  show (if (List.replicate i 'x').all (· = 'x') then some (List.replicate i 'x').length
    else none) = some i
  rw [if_pos, List.length_replicate]
  simp only [List.all_eq_true]
  intro a ha
  simp [List.eq_of_mem_replicate ha]

/-! ## Basic Page Stream lemmas -/

theorem pull_buffer {α : Type} (server : Server α) (fuel : Nat) (a : α) (rest : List α)
    (nx : Option String) : pull server fuel ⟨a :: rest, nx⟩ = (.item a, ⟨rest, nx⟩, 0) := by
  cases fuel <;> rfl

theorem pull_empty_none {α : Type} (server : Server α) (fuel : Nat) :
    pull server fuel ⟨[], none⟩ = (.done, ⟨[], none⟩, 0) := by
  cases fuel <;> rfl

theorem pull_fetch_err {α : Type} (server : Server α) (fuel : Nat) (url : String)
    (e : DomainError) (h : server url = .failure e) :
    pull server fuel ⟨[], some url⟩ = (.err e, ⟨[], none⟩, 1) := by
  cases fuel <;> simp [pull, h]

theorem pull_fetch_cons {α : Type} (server : Server α) (fuel : Nat) (url : String) (a : α)
    (rest : List α) (hdr : Option String) (h : server url = .page (a :: rest) hdr) :
    pull server fuel ⟨[], some url⟩ = (.item a, ⟨rest, extractNext hdr⟩, 1) := by
  cases fuel <;> simp [pull, h]

theorem pull_fetch_nil {α : Type} (server : Server α) (f : Nat) (url : String)
    (hdr : Option String) (h : server url = .page [] hdr) :
    pull server (f + 1) ⟨[], some url⟩ =
      ((pull server f ⟨[], extractNext hdr⟩).1, (pull server f ⟨[], extractNext hdr⟩).2.1,
        (pull server f ⟨[], extractNext hdr⟩).2.2 + 1) := by
  simp [pull, h]

theorem pullN_zero {α : Type} (server : Server α) (fuel : Nat) (s : StreamState α) :
    pullN server fuel 0 s = (s, 0) := rfl

theorem pullN_exhausted {α : Type} (server : Server α) (fuel : Nat) : ∀ k : Nat,
    pullN server fuel k ⟨[], none⟩ = (⟨[], none⟩, 0)
  | 0 => rfl
  | k + 1 => by
    simp [pullN, pull_empty_none, pullN_exhausted server fuel k]

theorem pullN_fetches_none {α : Type} (server : Server α) (fuel : Nat) : ∀ (k : Nat) (buf : List α),
    (pullN server fuel k ⟨buf, none⟩).2 = 0
  | 0, _ => rfl
  | k + 1, [] => by
    simp [pullN, pull_empty_none, pullN_fetches_none server fuel k []]
  | k + 1, a :: t => by
    simp [pullN, pull_buffer, pullN_fetches_none server fuel k t]

theorem pullN_buffer {α : Type} (server : Server α) (fuel : Nat) :
    ∀ (buf : List α) (m : Nat) (nx : Option String),
    pullN server fuel (buf.length + m) ⟨buf, nx⟩ = pullN server fuel m ⟨[], nx⟩
  | [], m, nx => by simp
  | a :: t, m, nx => by
    have h1 : (a :: t).length + m = (t.length + m) + 1 := by
      simp [List.length_cons]; omega
    rw [h1]
    simp [pullN, pull_buffer, pullN_buffer server fuel t m nx]

theorem pullN_buffer_le {α : Type} (server : Server α) (fuel : Nat) :
    ∀ (m : Nat) (buf : List α) (nx : Option String), m ≤ buf.length →
    pullN server fuel m ⟨buf, nx⟩ = (⟨buf.drop m, nx⟩, 0)
  | 0, buf, nx, _ => by simp [pullN]
  | m + 1, [], nx, h => absurd h (by simp)
  | m + 1, a :: t, nx, h => by
    simp [pullN, pull_buffer,
      pullN_buffer_le server fuel m t nx (by simpa using h)]

theorem drain_zero {α : Type} (server : Server α) (fuel : Nat) (s : StreamState α) :
    drain server fuel 0 s = ([], none, 0) := rfl

theorem drain_buffer {α : Type} (server : Server α) (fuel : Nat) :
    ∀ (buf : List α) (k : Nat) (nx : Option String),
    drain server fuel (buf.length + k) ⟨buf, nx⟩ =
      (buf ++ (drain server fuel k ⟨[], nx⟩).1, (drain server fuel k ⟨[], nx⟩).2.1,
        (drain server fuel k ⟨[], nx⟩).2.2)
  | [], k, nx => by simp
  | a :: t, k, nx => by
    have h1 : (a :: t).length + k = (t.length + k) + 1 := by
      simp [List.length_cons]; omega
    rw [h1]
    simp [drain, pull_buffer, drain_buffer server fuel t k nx]

/-! ## The page-sequence servers and the pull/drain characterizations -/

theorem pagesServer_at {α : Type} (pages : List (List α)) {i : Nat} (h : i < pages.length) :
    pagesServer pages (unaryUrl i) =
      .page pages[i] (if i + 1 < pages.length then some (mkNextHeader (i + 1)) else none) := by
  unfold pagesServer
  rw [urlIndex_unaryUrl]
  simp [h]

theorem extractNext_pagesHeader (len i : Nat) :
    extractNext (if i + 1 < len then some (mkNextHeader (i + 1)) else none) =
      nextOf len (i + 1) := by
  by_cases h : i + 1 < len
  · simp [h, nextOf, extractNext_mkNextHeader]
  · simp [h, nextOf, extractNext]

theorem drop_cons_facts {α : Type} {pages : List (List α)} {i : Nat} {pg : List α}
    {rest : List (List α)} (hdrop : pages.drop i = pg :: rest) :
    ∃ h : i < pages.length, pages[i] = pg ∧ pages.drop (i + 1) = rest := by
  have hlen : pages.length - i = rest.length + 1 := by
    have := congrArg List.length hdrop
    simpa [List.length_drop] using this
  have hlt : i < pages.length := by omega
  have hthis := List.drop_eq_getElem_cons hlt
  rw [hdrop] at hthis
  have hinj := List.cons.injEq pg rest pages[i] (pages.drop (i + 1)) ▸ hthis
  exact ⟨hlt, hinj.1.symm, hinj.2.symm⟩

theorem pullPages_firstItem {α : Type} (pages : List (List α)) :
    ∀ (es : List (List α)) (a : α) (t : List α) (rest : List (List α)) (i fuel : Nat),
    (∀ e ∈ es, e = []) → pages.drop i = es ++ (a :: t) :: rest → es.length ≤ fuel →
    pull (pagesServer pages) fuel ⟨[], nextOf pages.length i⟩ =
      (.item a, ⟨t, nextOf pages.length (i + es.length + 1)⟩, es.length + 1)
  | [], a, t, rest, i, fuel, _, hdrop, _ => by
    rw [List.nil_append] at hdrop
    obtain ⟨hlt, hget, _⟩ := drop_cons_facts hdrop
    have hnext : nextOf pages.length i = some (unaryUrl i) := by simp [nextOf, hlt]
    rw [hnext, pull_fetch_cons _ fuel _ a t _ (by rw [pagesServer_at pages hlt, hget]),
      extractNext_pagesHeader]
    simp
  | e :: es, a, t, rest, i, fuel, hes, hdrop, hfuel => by
    have he : e = [] := hes e (List.mem_cons_self _ _)
    subst he
    rw [List.cons_append] at hdrop
    obtain ⟨hlt, hget, hdrop'⟩ := drop_cons_facts hdrop
    have hnext : nextOf pages.length i = some (unaryUrl i) := by simp [nextOf, hlt]
    have hfuel' : es.length + 1 ≤ fuel := by simpa using hfuel
    obtain ⟨f, rfl⟩ : ∃ f, fuel = f + 1 := ⟨fuel - 1, by omega⟩
    rw [hnext, pull_fetch_nil _ f _ _ (by rw [pagesServer_at pages hlt, hget]),
      extractNext_pagesHeader]
    rw [pullPages_firstItem pages es a t rest (i + 1) f
      (fun e he => hes e (List.mem_cons_of_mem _ he)) hdrop' (by omega)]
    have hidx : i + 1 + es.length + 1 = i + (es.length + 1) + 1 := by omega
    simp [hidx]

theorem pullPages_allEmpty {α : Type} (pages : List (List α)) :
    ∀ (ds : List (List α)) (i fuel : Nat), (∀ e ∈ ds, e = []) → pages.drop i = ds →
    ds.length ≤ fuel →
    pull (pagesServer pages) fuel ⟨[], nextOf pages.length i⟩ = (.done, ⟨[], none⟩, ds.length)
  | [], i, fuel, _, hdrop, _ => by
    have hle : pages.length ≤ i := by
      have := congrArg List.length hdrop
      simp [List.length_drop] at this
      omega
    have hnext : nextOf pages.length i = none := by
      simp only [nextOf, if_neg (by omega : ¬i < pages.length)]
    rw [hnext, pull_empty_none]
    simp
  | e :: ds, i, fuel, hes, hdrop, hfuel => by
    have he : e = [] := hes e (List.mem_cons_self _ _)
    subst he
    obtain ⟨hlt, hget, hdrop'⟩ := drop_cons_facts hdrop
    have hnext : nextOf pages.length i = some (unaryUrl i) := by simp [nextOf, hlt]
    have hfuel' : ds.length + 1 ≤ fuel := by simpa using hfuel
    obtain ⟨f, rfl⟩ : ∃ f, fuel = f + 1 := ⟨fuel - 1, by omega⟩
    rw [hnext, pull_fetch_nil _ f _ _ (by rw [pagesServer_at pages hlt, hget]),
      extractNext_pagesHeader]
    rw [pullPages_allEmpty pages ds (i + 1) f
      (fun e he => hes e (List.mem_cons_of_mem _ he)) hdrop' (by omega)]
    simp

theorem flatten_ne_nil_decomp {α : Type} : ∀ (ds : List (List α)), ds.flatten ≠ [] →
    ∃ es a t rest, (∀ e ∈ es, e = []) ∧ ds = es ++ (a :: t) :: rest
  | [], h => absurd rfl h
  | [] :: ds, h => by
    have h' : ds.flatten ≠ [] := by simpa using h
    obtain ⟨es, a, t, rest, hes, heq⟩ := flatten_ne_nil_decomp ds h'
    refine ⟨[] :: es, a, t, rest, ?_, by rw [heq]; rfl⟩
    intro e he
    rcases List.mem_cons.mp he with h0 | h0
    · exact h0
    · exact hes e h0
  | (a :: t) :: ds, _ => ⟨[], a, t, ds, by simp, rfl⟩

theorem drain_succ_item {α : Type} (server : Server α) (fuel k : Nat) (s s' : StreamState α)
    (a : α) (n : Nat) (h : pull server fuel s = (.item a, s', n)) :
    drain server fuel (k + 1) s =
      (a :: (drain server fuel k s').1, (drain server fuel k s').2.1,
        n + (drain server fuel k s').2.2) := by
  simp [drain, h]

theorem drain_succ_done {α : Type} (server : Server α) (fuel k : Nat) (s s' : StreamState α)
    (n : Nat) (h : pull server fuel s = (.done, s', n)) :
    drain server fuel (k + 1) s = ([], none, n) := by
  simp [drain, h]

theorem drain_succ_err {α : Type} (server : Server α) (fuel k : Nat) (s s' : StreamState α)
    (e : DomainError) (n : Nat) (h : pull server fuel s = (.err e, s', n)) :
    drain server fuel (k + 1) s = ([], some e, n) := by
  simp [drain, h]

theorem drainPages {α : Type} (pages : List (List α)) :
    ∀ (ds : List (List α)) (i fuel : Nat), pages.drop i = ds → ds.length ≤ fuel →
    drain (pagesServer pages) fuel (ds.flatten.length + 1) ⟨[], nextOf pages.length i⟩ =
      (ds.flatten, none, ds.length)
  | [], i, fuel, hdrop, _ => by
    have hle : pages.length ≤ i := by
      have := congrArg List.length hdrop
      simp [List.length_drop] at this
      omega
    have hnext : nextOf pages.length i = none := by
      simp only [nextOf, if_neg (by omega : ¬i < pages.length)]
    rw [hnext]
    simp [drain, pull_empty_none]
  | (a :: t) :: rest, i, fuel, hdrop, hfuel => by
    obtain ⟨hlt, hget, hdrop'⟩ := drop_cons_facts hdrop
    have hnext : nextOf pages.length i = some (unaryUrl i) := by simp [nextOf, hlt]
    have hpull : pull (pagesServer pages) fuel ⟨[], nextOf pages.length i⟩ =
        (.item a, ⟨t, nextOf pages.length (i + 1)⟩, 1) := by
      rw [hnext, pull_fetch_cons _ fuel _ a t _ (by rw [pagesServer_at pages hlt, hget]),
        extractNext_pagesHeader]
    have hlen : ((a :: t) :: rest).flatten.length + 1 =
        (t.length + (rest.flatten.length + 1)) + 1 := by
      simp [List.flatten_cons]
      omega
    rw [hlen, drain_succ_item _ _ _ _ _ _ _ hpull, drain_buffer,
      drainPages pages rest (i + 1) fuel hdrop' (by simp at hfuel; omega)]
    simp [List.flatten_cons]
    omega
  | [] :: rest, i, fuel, hdrop, hfuel => by
    have hfuel' : rest.length + 1 ≤ fuel := by simpa using hfuel
    by_cases hj : rest.flatten = []
    · have hall : ∀ e ∈ ([] :: rest), e = [] := by
        intro e he
        rcases List.mem_cons.mp he with h0 | h0
        · exact h0
        · exact List.flatten_eq_nil_iff.mp hj e h0
      have hpull := pullPages_allEmpty pages ([] :: rest) i fuel hall hdrop (by simpa using hfuel)
      have hlen : ([] :: rest).flatten.length + 1 = 0 + 1 := by simp [hj]
      rw [hlen, drain_succ_done _ _ _ _ _ _ hpull]
      simp [hj]
    · obtain ⟨es, b, t2, r2, hes, heq⟩ := flatten_ne_nil_decomp rest hj
      obtain ⟨hlt, hget, hdrop'⟩ := drop_cons_facts hdrop
      have hlenr : rest.length = es.length + 1 + r2.length := by rw [heq]; simp; omega
      have hdrop2 : pages.drop i = ([] :: es) ++ (b :: t2) :: r2 := by
        rw [hdrop, heq]; rfl
      have hpi := pullPages_firstItem pages ([] :: es) b t2 r2 i fuel
        (by
          intro e he
          rcases List.mem_cons.mp he with h0 | h0
          · exact h0
          · exact hes e h0)
        hdrop2 (by simp; omega)
      have hpi1 := pullPages_firstItem pages es b t2 r2 (i + 1) fuel hes
        (by rw [hdrop', heq]) (by omega)
      have hih := drainPages pages rest (i + 1) fuel hdrop' (by omega)
      -- unfold the drain at position i+1 by one pull
      obtain ⟨m, hm⟩ : ∃ m, rest.flatten.length = m + 1 := by
        rcases hfe : rest.flatten with _ | ⟨x, xs⟩
        · exact absurd hfe hj
        · exact ⟨xs.length, by simp⟩
      rw [hm, drain_succ_item _ _ _ _ _ _ _ hpi1] at hih
      simp only [Prod.mk.injEq] at hih
      -- the pull at position i lands in the same state, with one more fetch
      have hidx : i + ([] :: es).length + 1 = i + 1 + es.length + 1 := by simp; omega
      rw [hidx] at hpi
      have hlen2 : ([] :: rest).flatten.length + 1 = (m + 1) + 1 := by simp [hm]
      rw [hlen2, drain_succ_item _ _ _ _ _ _ _ hpi]
      refine Prod.ext ?_ (Prod.ext ?_ ?_)
      · simp [hih.1]
      · simp [hih.2.1]
      · simp only []
        have h3 := hih.2.2
        simp [List.length_cons]
        omega

/-- Ceiling division on naturals. -/
def ceilDivNat (k p : Nat) : Nat := (k + p - 1) / p

theorem one_le_ceilDivNat {k p : Nat} (hp : 0 < p) (hk : 1 ≤ k) : 1 ≤ ceilDivNat k p := by
  unfold ceilDivNat
  rw [Nat.le_div_iff_mul_le hp]
  omega

theorem ceilDivNat_add_self {m p : Nat} (hp : 0 < p) :
    ceilDivNat (p + m) p = ceilDivNat m p + 1 := by
  unfold ceilDivNat
  have h : p + m + p - 1 = (m + p - 1) + p := by omega
  rw [h, Nat.add_div_right _ hp]

theorem pullNPages_fetch_bound {α : Type} (pages : List (List α)) (p : Nat) (hp : 0 < p)
    (huni : ∀ j < pages.length - 1, ((pages[j]?).getD []).length = p) :
    ∀ (ds : List (List α)) (i k fuel : Nat), pages.drop i = ds → ds.length ≤ fuel →
    (pullN (pagesServer pages) fuel k ⟨[], nextOf pages.length i⟩).2 ≤ ceilDivNat k p
  | [], i, k, fuel, hdrop, _ => by
    have hle : pages.length ≤ i := by
      have := congrArg List.length hdrop
      simp [List.length_drop] at this
      omega
    have hnext : nextOf pages.length i = none := by
      simp only [nextOf, if_neg (by omega : ¬i < pages.length)]
    rw [hnext, pullN_fetches_none]
    exact Nat.zero_le _
  | pg :: rest, i, k, fuel, hdrop, hfuel => by
    cases k with
    | zero =>
      rw [pullN_zero]
      exact Nat.zero_le _
    | succ k' =>
      obtain ⟨hlt, hget, hdrop'⟩ := drop_cons_facts hdrop
      have hnext : nextOf pages.length i = some (unaryUrl i) := by simp [nextOf, hlt]
      rcases rest with _ | ⟨r0, r1⟩
      · -- the last page of the sequence
        have hlast : pages.length = i + 1 := by
          have := congrArg List.length hdrop
          simp [List.length_drop] at this
          omega
        have hnone : nextOf pages.length (i + 1) = none := by
          simp [nextOf, hlast]
        rcases hpg : pg with _ | ⟨a, t⟩
        · subst hpg
          have hpull := pullPages_allEmpty pages [[]] i fuel (by simp) hdrop
            (by simpa using hfuel)
          simp only [List.length_cons, List.length_nil] at hpull
          simp [pullN, hpull, pullN_exhausted]
          exact one_le_ceilDivNat hp (by omega)
        · subst hpg
          have hpull : pull (pagesServer pages) fuel ⟨[], nextOf pages.length i⟩ =
              (.item a, ⟨t, nextOf pages.length (i + 1)⟩, 1) := by
            rw [hnext, pull_fetch_cons _ fuel _ a t _ (by rw [pagesServer_at pages hlt, hget]),
              extractNext_pagesHeader]
          rw [hnone] at hpull
          simp [pullN, hpull, pullN_fetches_none]
          exact one_le_ceilDivNat hp (by omega)
      · -- a page that is not the last: it has exactly `p` items
        have hi1 : i + 1 < pages.length := by
          have := congrArg List.length hdrop
          simp [List.length_drop] at this
          omega
        have hplen : pg.length = p := by
          have h0 := huni i (by omega)
          rw [List.getElem?_eq_getElem hlt, hget] at h0
          simpa using h0
        obtain ⟨a, t, rfl⟩ : ∃ a t, pg = a :: t := by
          rcases pg with _ | ⟨a, t⟩
          · exact absurd hplen.symm (by simpa using Nat.ne_of_gt hp)
          · exact ⟨a, t, rfl⟩
        have hpull : pull (pagesServer pages) fuel ⟨[], nextOf pages.length i⟩ =
            (.item a, ⟨t, nextOf pages.length (i + 1)⟩, 1) := by
          rw [hnext, pull_fetch_cons _ fuel _ a t _ (by rw [pagesServer_at pages hlt, hget]),
            extractNext_pagesHeader]
        simp only [pullN, hpull]
        by_cases hk : k' ≤ t.length
        · rw [pullN_buffer_le _ _ _ _ _ hk]
          simp
          exact one_le_ceilDivNat hp (by omega)
        · have hsplit : k' = t.length + (k' - t.length) := by omega
          rw [hsplit, pullN_buffer]
          have hih := pullNPages_fetch_bound pages p hp huni (r0 :: r1) (i + 1)
            (k' - t.length) fuel hdrop' (by simp at hfuel ⊢; omega)
          have htlen : t.length + 1 = p := by simpa using hplen
          have harith : t.length + (k' - t.length) + 1 = p + (k' - t.length) := by omega
          rw [harith, ceilDivNat_add_self hp]
          omega

theorem pull_err_exhausts {α : Type} (server : Server α) (fuel : Nat) :
    ∀ (s s' : StreamState α) (e : DomainError) (n : Nat),
    pull server fuel s = (.err e, s', n) → s' = ⟨[], none⟩ := by
  induction fuel with
  | zero =>
    rintro ⟨buf, nx⟩ s' e n h
    rcases buf with _ | ⟨a, rest⟩
    · rcases nx with _ | url
      · rw [pull_empty_none] at h
        simp at h
      · cases hs : server url with
        | failure e' =>
          rw [pull_fetch_err _ _ _ _ hs] at h
          simp only [Prod.mk.injEq] at h
          exact h.2.1.symm
        | page items hdr =>
          rcases items with _ | ⟨b, brest⟩
          · have h0 : pull server 0 ⟨[], some url⟩ = (.done, ⟨[], extractNext hdr⟩, 1) := by
              simp [pull, hs]
            rw [h0] at h
            simp at h
          · rw [pull_fetch_cons _ _ _ _ _ _ hs] at h
            simp at h
    · rw [pull_buffer] at h
      simp at h
  | succ f ih =>
    rintro ⟨buf, nx⟩ s' e n h
    rcases buf with _ | ⟨a, rest⟩
    · rcases nx with _ | url
      · rw [pull_empty_none] at h
        simp at h
      · cases hs : server url with
        | failure e' =>
          rw [pull_fetch_err _ _ _ _ hs] at h
          simp only [Prod.mk.injEq] at h
          exact h.2.1.symm
        | page items hdr =>
          rcases items with _ | ⟨b, brest⟩
          · rw [pull_fetch_nil _ f _ _ hs] at h
            simp only [Prod.mk.injEq] at h
            obtain ⟨h1, h2, _⟩ := h
            have hx : pull server f ⟨[], extractNext hdr⟩ =
                (.err e, (pull server f ⟨[], extractNext hdr⟩).2.1,
                  (pull server f ⟨[], extractNext hdr⟩).2.2) := by
              rw [← h1]
            rw [← h2]
            exact ih _ _ _ _ hx
          · rw [pull_fetch_cons _ _ _ _ _ _ hs] at h
            simp at h
    · rw [pull_buffer] at h
      simp at h

/-! ## Lemmas about the list-options serializers -/

theorem insertKV_ne_nil (k v : String) (l : List (String × String)) : insertKV k v l ≠ [] := by
  unfold insertKV
  split
  · rename_i h
    rcases l with _ | ⟨p, t⟩
    · simp at h
    · simp
  · simp

theorem applyIssueListOp_ne_nil (b : IssueListOptionsBuilder) (op : IssueListOp) :
    (applyIssueListOp b op).opts.params ≠ [] := by
  cases op <;> exact insertKV_ne_nil _ _ _

theorem foldl_issueOps_ne_nil : ∀ (ops : List IssueListOp) (b : IssueListOptionsBuilder),
    b.opts.params ≠ [] → (ops.foldl applyIssueListOp b).opts.params ≠ []
  | [], _, h => h
  | op :: rest, b, _ => by
    rw [List.foldl_cons]
    exact foldl_issueOps_ne_nil rest _ (applyIssueListOp_ne_nil b op)

theorem applyCommentListOp_ne_nil (b : CommentListOptionsBuilder) (op : CommentListOp) :
    (applyCommentListOp b op).opts.params ≠ [] := by
  cases op <;> exact insertKV_ne_nil _ _ _

theorem foldl_commentOps_ne_nil : ∀ (ops : List CommentListOp) (b : CommentListOptionsBuilder),
    b.opts.params ≠ [] → (ops.foldl applyCommentListOp b).opts.params ≠ []
  | [], _, h => h
  | op :: rest, b, _ => by
    rw [List.foldl_cons]
    exact foldl_commentOps_ne_nil rest _ (applyCommentListOp_ne_nil b op)

theorem applyReviewCommentListOp_ne_nil (b : ReviewCommentListOptionsBuilder)
    (op : ReviewCommentListOp) : (applyReviewCommentListOp b op).opts.params ≠ [] := by
  cases op <;> exact insertKV_ne_nil _ _ _

theorem foldl_reviewCommentOps_ne_nil :
    ∀ (ops : List ReviewCommentListOp) (b : ReviewCommentListOptionsBuilder),
    b.opts.params ≠ [] → (ops.foldl applyReviewCommentListOp b).opts.params ≠ []
  | [], _, h => h
  | op :: rest, b, _ => by
    rw [List.foldl_cons]
    exact foldl_reviewCommentOps_ne_nil rest _ (applyReviewCommentListOp_ne_nil b op)

theorem applyCheckSuiteListOp_ne_nil (b : CheckSuiteListOptionsBuilder)
    (op : CheckSuiteListOp) : (applyCheckSuiteListOp b op).opts.params ≠ [] := by
  cases op <;> exact insertKV_ne_nil _ _ _

theorem foldl_checkSuiteOps_ne_nil :
    ∀ (ops : List CheckSuiteListOp) (b : CheckSuiteListOptionsBuilder),
    b.opts.params ≠ [] → (ops.foldl applyCheckSuiteListOp b).opts.params ≠ []
  | [], _, h => h
  | op :: rest, b, _ => by
    rw [List.foldl_cons]
    exact foldl_checkSuiteOps_ne_nil rest _ (applyCheckSuiteListOp_ne_nil b op)

theorem issueListOptions_serialize_some {o : IssueListOptions} (h : o.params ≠ []) :
    o.serialize = some (urlencodePairs o.params) := by
  rcases hp : o.params with _ | ⟨q, t⟩
  · exact absurd hp h
  · simp [IssueListOptions.serialize, hp]

theorem commentListOptions_serialize_some {o : CommentListOptions} (h : o.params ≠ []) :
    o.serialize = some (urlencodePairs o.params) := by
  rcases hp : o.params with _ | ⟨q, t⟩
  · exact absurd hp h
  · simp [CommentListOptions.serialize, hp]

theorem reviewCommentListOptions_serialize_some {o : ReviewCommentListOptions}
    (h : o.params ≠ []) : o.serialize = some (urlencodePairs o.params) := by
  rcases hp : o.params with _ | ⟨q, t⟩
  · exact absurd hp h
  · simp [ReviewCommentListOptions.serialize, hp]

theorem checkSuiteListOptions_serialize_some {o : CheckSuiteListOptions} (h : o.params ≠ []) :
    o.serialize = some (urlencodePairs o.params) := by
  rcases hp : o.params with _ | ⟨q, t⟩
  · exact absurd hp h
  · simp [CheckSuiteListOptions.serialize, hp]

/-! ## Claim theorems -/

/-- C4: a Dispatcher call whose AuthenticationConstraint the configured
Credential does not satisfy returns the `constraintViolation` error and
performs zero network calls: the constraint check precedes any I/O. -/
theorem c4_constraint_violation_zero_io {T : Type} (cred : Credential)
    (constraint : AuthenticationConstraint) (transport : Unit → TransportOutcome)
    (decode : JsonValue → Option T) (h : satisfies cred constraint = false) :
    dispatch cred constraint transport decode = (.error .constraintViolation, 0) := by
  unfold dispatch
  rw [h]
  simp

/-- Witness for C4: a personal token does not satisfy the app-only
constraint, so the call fails with `constraintViolation` and zero
network calls. -/
theorem c4_constraint_violation_zero_io_witness :
    satisfies (.Token "t") .MustBeApp = false ∧
    dispatch (T := Nat) (.Token "t") .MustBeApp (fun _ => .failed) (fun _ => none) =
      (.error .constraintViolation, 0) :=
  ⟨rfl, c4_constraint_violation_zero_io _ _ _ _ rfl⟩

/-- C5: the Error Classifier yields exactly one Domain error variant:
transport failure maps to `transport`; a 404 with body
`(message: Not Found)` maps to `status 404` with the parsed body and the
raw body preserved; any non-2xx response classifies as `status` with the
opportunistic parse and the raw body, for every body shape (the
classification itself is total); a 2xx body the decoder rejects maps to
`serialization`. -/
theorem c5_error_classifier :
    (∀ (T : Type) (decode : JsonValue → Option T),
      classify .failed decode = .error .transport) ∧
    (∀ (T : Type) (decode : JsonValue → Option T),
      classify (.responded 404 (.obj [("message", .str "Not Found")])) decode =
        .error (.status 404 (some ⟨"Not Found", none⟩)
          (.obj [("message", .str "Not Found")]))) ∧
    (∀ (T : Type) (decode : JsonValue → Option T) (code : Nat) (body : JsonValue),
      ¬(200 ≤ code ∧ code < 300) →
      classify (.responded code body) decode =
        .error (.status code (parseApiError body) body)) ∧
    (∀ (T : Type) (decode : JsonValue → Option T) (body : JsonValue),
      decode body = none → classify (.responded 200 body) decode = .error .serialization) := by
  refine ⟨fun T decode => rfl, fun T decode => ?_, fun T decode code body h => ?_,
    fun T decode body h => ?_⟩
  · have h404 : ¬(200 ≤ 404 ∧ 404 < 300) := by decide
    simp only [classify, if_neg h404]
    rfl
  · simp [classify, h]
  · simp [classify, h]

/-- Witness for C5: a 500 response with a non-object body still
classifies as `status` with the raw body preserved, and a 200 response
whose body the decoder rejects classifies as `serialization`. -/
theorem c5_error_classifier_witness :
    classify (T := String) (.responded 500 (.str "oops")) JsonValue.asStr =
      .error (.status 500 (parseApiError (.str "oops")) (.str "oops")) ∧
    classify (T := String) (.responded 200 (.num 3)) JsonValue.asStr =
      .error .serialization :=
  ⟨c5_error_classifier.2.2.1 String JsonValue.asStr 500 (.str "oops") (by decide),
    c5_error_classifier.2.2.2 String JsonValue.asStr (.num 3) rfl⟩

/-- C7: CheckRuns::create and CheckRuns::update return the serialization
failure of the options payload as an immediate error future with no
dispatch; only when serialization succeeds is the request dispatched
(exactly one `post_media` dispatch). -/
theorem c7_checkruns_serialize_before_dispatch :
    (∀ (c : CheckRuns) (e : String),
      CheckRuns.create c (.error e) = .failSer e ∧
      networkDispatches (CheckRuns.create c (.error e)) = 0) ∧
    (∀ (c : CheckRuns) (data : String),
      CheckRuns.create c (.ok data) =
        .dispatchMedia (c.path "") data (.Preview "antiope") .Unconstrained ∧
      networkDispatches (CheckRuns.create c (.ok data)) = 1) ∧
    (∀ (c : CheckRuns) (id e : String),
      CheckRuns.update c id (.error e) = .failSer e ∧
      networkDispatches (CheckRuns.update c id (.error e)) = 0) ∧
    (∀ (c : CheckRuns) (id data : String),
      CheckRuns.update c id (.ok data) =
        .dispatchMedia (c.path ("/" ++ id)) data (.Preview "antiope") .Unconstrained ∧
      networkDispatches (CheckRuns.update c id (.ok data)) = 1) :=
  ⟨fun _ _ => ⟨rfl, rfl⟩, fun _ _ => ⟨rfl, rfl⟩, fun _ _ _ => ⟨rfl, rfl⟩,
    fun _ _ _ => ⟨rfl, rfl⟩⟩

/-- C9: IssueRef::close is exactly IssueRef::edit applied to an
IssueOptions whose state is `Some "closed"` and whose other fields keep
their defaults, and its serialized PATCH payload is exactly the single
`state` field, every other field being omitted by its skip predicate;
IssueRef::open is the analogue with `"open"`. -/
theorem c9_close_is_edit_with_closed_state :
    (∀ (owner repo : String) (number : Nat),
      IssueRef.close owner repo number =
        IssueRef.edit owner repo number { ({} : IssueOptions) with state := some "closed" }) ∧
    IssueOptions.serializeJson { ({} : IssueOptions) with state := some "closed" } =
      "\x7b\"state\":\"closed\"\x7d" ∧
    (∀ (owner repo : String) (number : Nat),
      IssueRef.openIssue owner repo number =
        IssueRef.edit owner repo number { ({} : IssueOptions) with state := some "open" }) ∧
    IssueOptions.serializeJson { ({} : IssueOptions) with state := some "open" } =
      "\x7b\"state\":\"open\"\x7d" :=
  ⟨fun _ _ _ => rfl, rfl, fun _ _ _ => rfl, rfl⟩

/-- C10: the null-coalescing deserializers never return an error: each
returns `Ok` for every input, substituting the default value (default
`User`, empty string, `0`) exactly when the underlying deserialization
fails — in particular on `null` — and passing the value through when it
succeeds. -/
theorem c10_null_coalescing_never_errors :
    (∀ j : JsonValue, exceptIsOk (deserialize_null_user.deserialize j) = true) ∧
    (∀ (j : JsonValue) (e : String), decodeUser j = .error e →
      deserialize_null_user.deserialize j = .ok default) ∧
    (∀ (j : JsonValue) (u : User), decodeUser j = .ok u →
      deserialize_null_user.deserialize j = .ok u) ∧
    deserialize_null_user.deserialize .null = .ok default ∧
    (∀ j : JsonValue, exceptIsOk (deserialize_null_string.deserialize j) = true) ∧
    (∀ (j : JsonValue) (e : String), decodeString j = .error e →
      deserialize_null_string.deserialize j = .ok "") ∧
    deserialize_null_string.deserialize .null = .ok "" ∧
    (∀ j : JsonValue, exceptIsOk (deserialize_null_u32.deserialize j) = true) ∧
    (∀ (j : JsonValue) (e : String), decodeU32 j = .error e →
      deserialize_null_u32.deserialize j = .ok 0) ∧
    deserialize_null_u32.deserialize .null = .ok 0 := by
  refine ⟨fun j => rfl, fun j e h => ?_, fun j u h => ?_, rfl, fun j => rfl,
    fun j e h => ?_, rfl, fun j => rfl, fun j e h => ?_, rfl⟩
  · simp [deserialize_null_user.deserialize, h]
  · simp [deserialize_null_user.deserialize, h]
  · simp [deserialize_null_string.deserialize, h]
  · simp [deserialize_null_u32.deserialize, h]

/-- Witness for C10: on `null` the user deserializer coalesces the failed
parse to the default user, and a well-formed user object passes through. -/
theorem c10_null_coalescing_never_errors_witness :
    deserialize_null_user.deserialize .null = .ok default ∧
    deserialize_null_string.deserialize (.num 7) = .ok "" ∧
    deserialize_null_u32.deserialize (.str "x") = .ok 0 :=
  ⟨c10_null_coalescing_never_errors.2.1 .null "invalid User" rfl,
    c10_null_coalescing_never_errors.2.2.2.2.2.1 (.num 7) "invalid string" rfl,
    c10_null_coalescing_never_errors.2.2.2.2.2.2.2.2.1 (.str "x") "invalid u32" rfl⟩

theorem issueListOps_serialize_none_iff (ops : List IssueListOp) :
    ((ops.foldl applyIssueListOp {}).build).serialize = none ↔ ops = [] := by
  constructor
  · intro h
    rcases ops with _ | ⟨op, rest⟩
    · rfl
    · exfalso
      have hne : ((op :: rest).foldl applyIssueListOp {}).opts.params ≠ [] := by
        rw [List.foldl_cons]
        exact foldl_issueOps_ne_nil rest _ (applyIssueListOp_ne_nil _ op)
      simp only [IssueListOptionsBuilder.build] at h
      rw [issueListOptions_serialize_some hne] at h
      simp at h
  · rintro rfl
    rfl

theorem commentListOps_serialize_none_iff (ops : List CommentListOp) :
    ((ops.foldl applyCommentListOp {}).build).serialize = none ↔ ops = [] := by
  constructor
  · intro h
    rcases ops with _ | ⟨op, rest⟩
    · rfl
    · exfalso
      have hne : ((op :: rest).foldl applyCommentListOp {}).opts.params ≠ [] := by
        rw [List.foldl_cons]
        exact foldl_commentOps_ne_nil rest _ (applyCommentListOp_ne_nil _ op)
      simp only [CommentListOptionsBuilder.build] at h
      rw [commentListOptions_serialize_some hne] at h
      simp at h
  · rintro rfl
    rfl

theorem reviewCommentListOps_serialize_none_iff (ops : List ReviewCommentListOp) :
    ((ops.foldl applyReviewCommentListOp {}).build).serialize = none ↔ ops = [] := by
  constructor
  · intro h
    rcases ops with _ | ⟨op, rest⟩
    · rfl
    · exfalso
      have hne : ((op :: rest).foldl applyReviewCommentListOp {}).opts.params ≠ [] := by
        rw [List.foldl_cons]
        exact foldl_reviewCommentOps_ne_nil rest _ (applyReviewCommentListOp_ne_nil _ op)
      simp only [ReviewCommentListOptionsBuilder.build] at h
      rw [reviewCommentListOptions_serialize_some hne] at h
      simp at h
  · rintro rfl
    rfl

theorem checkSuiteListOps_serialize_none_iff (ops : List CheckSuiteListOp) :
    ((ops.foldl applyCheckSuiteListOp {}).build).serialize = none ↔ ops = [] := by
  constructor
  · intro h
    rcases ops with _ | ⟨op, rest⟩
    · rfl
    · exfalso
      have hne : ((op :: rest).foldl applyCheckSuiteListOp {}).opts.params ≠ [] := by
        rw [List.foldl_cons]
        exact foldl_checkSuiteOps_ne_nil rest _ (applyCheckSuiteListOp_ne_nil _ op)
      simp only [CheckSuiteListOptionsBuilder.build] at h
      rw [checkSuiteListOptions_serialize_some hne] at h
      simp at h
  · rintro rfl
    rfl

/-- C8: each list-options serializer returns `none` exactly when no
parameter was set and otherwise `some` of the url-encoded query string of
the set parameters; the list/iter operations hand the core the bare path
when `serialize` is `none`, and the path joined with `?` and the query
when it is `some`.  The two concrete vectors are the source's own test
cases. -/
theorem c8_serialize_and_uri_construction :
    (∀ ops : List IssueListOp,
      ((ops.foldl applyIssueListOp {}).build).serialize = none ↔ ops = []) ∧
    (∀ o : IssueListOptions, o.params ≠ [] →
      o.serialize = some (urlencodePairs o.params)) ∧
    (∀ ops : List CommentListOp,
      ((ops.foldl applyCommentListOp {}).build).serialize = none ↔ ops = []) ∧
    (∀ o : CommentListOptions, o.params ≠ [] →
      o.serialize = some (urlencodePairs o.params)) ∧
    (∀ ops : List ReviewCommentListOp,
      ((ops.foldl applyReviewCommentListOp {}).build).serialize = none ↔ ops = []) ∧
    (∀ o : ReviewCommentListOptions, o.params ≠ [] →
      o.serialize = some (urlencodePairs o.params)) ∧
    (∀ ops : List CheckSuiteListOp,
      ((ops.foldl applyCheckSuiteListOp {}).build).serialize = none ↔ ops = []) ∧
    (∀ o : CheckSuiteListOptions, o.params ≠ [] →
      o.serialize = some (urlencodePairs o.params)) ∧
    (∀ (owner repo : String) (o : IssueListOptions), o.serialize = none →
      Issues.listUri owner repo o = Issues.path owner repo "" ∧
      Issues.iterUri owner repo o = Issues.path owner repo "") ∧
    (∀ (owner repo : String) (o : IssueListOptions) (q : String), o.serialize = some q →
      Issues.listUri owner repo o = Issues.path owner repo "" ++ "?" ++ q ∧
      Issues.iterUri owner repo o = Issues.path owner repo "" ++ "?" ++ q) ∧
    (∀ (owner repo : String) (number : Nat) (o : CommentListOptions), o.serialize = none →
      Comments.listUri owner repo number o = Comments.path owner repo number ∧
      Comments.iterUri owner repo number o = Comments.path owner repo number) ∧
    (∀ (owner repo : String) (number : Nat) (o : CommentListOptions) (q : String),
      o.serialize = some q →
      Comments.listUri owner repo number o = Comments.path owner repo number ++ "?" ++ q ∧
      Comments.iterUri owner repo number o = Comments.path owner repo number ++ "?" ++ q) ∧
    (∀ (owner repo : String) (number : Nat) (o : ReviewCommentListOptions),
      o.serialize = none →
      ReviewComments.listUri owner repo number o = ReviewComments.path owner repo number ∧
      ReviewComments.iterUri owner repo number o = ReviewComments.path owner repo number) ∧
    (∀ (owner repo : String) (number : Nat) (o : ReviewCommentListOptions) (q : String),
      o.serialize = some q →
      ReviewComments.listUri owner repo number o =
        ReviewComments.path owner repo number ++ "?" ++ q ∧
      ReviewComments.iterUri owner repo number o =
        ReviewComments.path owner repo number ++ "?" ++ q) ∧
    (IssueListOptionsBuilder.build (IssueListOptionsBuilder.state {} .Closed)).serialize =
      some "state=closed" ∧
    (IssueListOptionsBuilder.build
      (IssueListOptionsBuilder.labels {} ["foo", "bar"])).serialize =
      some "labels=foo%2Cbar" := by
  refine ⟨issueListOps_serialize_none_iff,
    fun o h => issueListOptions_serialize_some h,
    commentListOps_serialize_none_iff,
    fun o h => commentListOptions_serialize_some h,
    reviewCommentListOps_serialize_none_iff,
    fun o h => reviewCommentListOptions_serialize_some h,
    checkSuiteListOps_serialize_none_iff,
    fun o h => checkSuiteListOptions_serialize_some h,
    fun owner repo o h => ⟨by simp [Issues.listUri, h, joinSep],
      by simp [Issues.iterUri, h, joinSep]⟩,
    fun owner repo o q h => ⟨by simp [Issues.listUri, h, joinSep],
      by simp [Issues.iterUri, h, joinSep]⟩,
    fun owner repo number o h => ⟨by simp [Comments.listUri, h, joinSep],
      by simp [Comments.iterUri, h, joinSep]⟩,
    fun owner repo number o q h => ⟨by simp [Comments.listUri, h, joinSep],
      by simp [Comments.iterUri, h, joinSep]⟩,
    fun owner repo number o h => ⟨by simp [ReviewComments.listUri, h, joinSep],
      by simp [ReviewComments.iterUri, h, joinSep]⟩,
    fun owner repo number o q h => ⟨by simp [ReviewComments.listUri, h, joinSep],
      by simp [ReviewComments.iterUri, h, joinSep]⟩,
    by decide, by decide⟩

/-- Witness for C8: a non-empty params map serializes to `some` of its
encoding, and an empty options value leaves the issues path bare. -/
theorem c8_serialize_and_uri_construction_witness :
    (⟨[("per_page", "2")]⟩ : IssueListOptions).serialize =
      some (urlencodePairs [("per_page", "2")]) ∧
    Issues.listUri "o" "r" ⟨[]⟩ = Issues.path "o" "r" "" :=
  ⟨c8_serialize_and_uri_construction.2.1 ⟨[("per_page", "2")]⟩ (by decide),
    (c8_serialize_and_uri_construction.2.2.2.2.2.2.2.2.1 "o" "r" ⟨[]⟩ rfl).1⟩

/-- C6: the Cursor Extractor maps a link header to its well-formed
entries, skipping a malformed entry without failing the rest; absence of
the header or of a `next` relation is the normal no-further-pages
signal, and a Page Stream over a single page whose header carries only
`rel=last` is exhausted after draining that page's items (two items,
one fetch, no error). -/
theorem c6_cursor_extractor_contract :
    parseLinkHeader "<https://a/p2>; rel=\"next\", <https://a/p9>; rel=\"last\"" =
      [("next", "https://a/p2"), ("last", "https://a/p9")] ∧
    parseLinkHeader "<https://a/p2>; rel=\"next\", junk, <https://a/p9>; rel=\"last\"" =
      [("next", "https://a/p2"), ("last", "https://a/p9")] ∧
    extractNext (some "<https://a/p9>; rel=\"last\"") = none ∧
    extractNext none = none ∧
    drain
      (fun url =>
        if url = "/items" then
          FetchResult.page ["A", "B"] (some "<https://a/p9>; rel=\"last\"")
        else .failure .transport)
      1 3 ⟨[], some "/items"⟩ = (["A", "B"], none, 1) :=
  ⟨by decide, by decide, by decide, rfl, by rfl⟩

/-- C1: for every sequence of pages whose last page carries no `next`
relation, fully draining the Page Stream yields exactly the
concatenation of the pages, in intra-page order with pages in `next`
order, with exactly one fetch per page (the drain is given one more pull
than there are items, and that final pull performs no fetch); and the
end-to-end two-page scenario through the raw link header yields
`A, B, C` with exactly two fetches. -/
theorem c1_page_stream_complete_drain :
    (∀ (α : Type) (pages : List (List α)),
      drain (pagesServer pages) pages.length (pages.flatten.length + 1)
        ⟨[], nextOf pages.length 0⟩ = (pages.flatten, none, pages.length)) ∧
    drain
      (fun url =>
        if url = "/items" then
          FetchResult.page ["A", "B"] (some "<https://api/page2>; rel=\"next\"")
        else if url = "https://api/page2" then .page ["C"] none
        else .failure .transport)
      2 4 ⟨[], some "/items"⟩ = (["A", "B", "C"], none, 2) := by
  refine ⟨fun α pages => ?_, by rfl⟩
  exact drainPages pages pages 0 pages.length (by simp) (le_refl _)

/-- C2: over a server whose non-final pages hold exactly `page_size`
items, `k` pulls perform at most `ceil(k / page_size)` fetches;
constructing a stream (zero pulls) performs zero fetches; a pull
answered from a non-empty buffer performs no I/O. -/
theorem c2_pull_fetch_bound :
    (∀ (α : Type) (pages : List (List α)) (p k : Nat), 0 < p →
      (∀ j < pages.length - 1, ((pages[j]?).getD []).length = p) →
      (pullN (pagesServer pages) pages.length k ⟨[], nextOf pages.length 0⟩).2 ≤
        ceilDivNat k p) ∧
    (∀ (α : Type) (server : Server α) (fuel : Nat) (s : StreamState α),
      pullN server fuel 0 s = (s, 0)) ∧
    (∀ (α : Type) (server : Server α) (fuel : Nat) (a : α) (rest : List α)
      (nx : Option String),
      pull server fuel ⟨a :: rest, nx⟩ = (.item a, ⟨rest, nx⟩, 0)) := by
  refine ⟨fun α pages p k hp huni => ?_, fun α server fuel s => rfl,
    fun α server fuel a rest nx => pull_buffer server fuel a rest nx⟩
  exact pullNPages_fetch_bound pages p hp huni pages 0 k pages.length (by simp) (le_refl _)

/-- Witness for C2: two pages of sizes 2 and 1 with page size 2: three
pulls perform at most two fetches. -/
theorem c2_pull_fetch_bound_witness :
    (pullN (pagesServer [[1, 2], [3]]) 2 3 ⟨[], nextOf 2 0⟩).2 ≤ ceilDivNat 3 2 :=
  c2_pull_fetch_bound.1 Nat [[1, 2], [3]] 2 3 (by decide) (by decide)

/-- C3: a page fetch that returns a Domain error propagates that error to
the current pull's caller with the stream left in the exhausted state;
every errored pull leaves the exhausted state; and the exhausted state
answers every further pull with end-of-sequence, performing no fetch and
yielding no item and no repeated error. -/
theorem c3_error_terminates_stream :
    (∀ (α : Type) (server : Server α) (fuel : Nat) (url : String) (e : DomainError),
      server url = .failure e →
      pull server fuel ⟨[], some url⟩ = (.err e, ⟨[], none⟩, 1)) ∧
    (∀ (α : Type) (server : Server α) (fuel : Nat) (s s' : StreamState α) (e : DomainError)
      (n : Nat), pull server fuel s = (.err e, s', n) → s' = ⟨[], none⟩) ∧
    (∀ (α : Type) (server : Server α) (fuel k : Nat),
      pullN server fuel k ⟨[], none⟩ = (⟨[], none⟩, 0)) ∧
    (∀ (α : Type) (server : Server α) (fuel : Nat),
      pull server fuel ⟨[], none⟩ = (.done, ⟨[], none⟩, 0)) :=
  ⟨fun _ server fuel url e h => pull_fetch_err server fuel url e h,
    fun _ server fuel s s' e n h => pull_err_exhausts server fuel s s' e n h,
    fun _ server fuel k => pullN_exhausted server fuel k,
    fun _ server fuel => pull_empty_none server fuel⟩

/-- Witness for C3: a server that always fails makes the first pull
propagate the transport error and leave the exhausted state, and the
exhausted state performs no further fetches. -/
theorem c3_error_terminates_stream_witness :
    pull (fun _ => (FetchResult.failure .transport : FetchResult Nat)) 0 ⟨[], some "u"⟩ =
      (.err .transport, ⟨[], none⟩, 1) ∧
    (⟨[], none⟩ : StreamState Nat) = ⟨[], none⟩ ∧
    pullN (fun _ => (FetchResult.failure .transport : FetchResult Nat)) 0 5 ⟨[], none⟩ =
      (⟨[], none⟩, 0) :=
  ⟨c3_error_terminates_stream.1 Nat (fun _ => .failure .transport) 0 "u" .transport rfl,
    c3_error_terminates_stream.2.1 Nat (fun _ => .failure .transport) 0 ⟨[], some "u"⟩
      ⟨[], none⟩ .transport 1
      (c3_error_terminates_stream.1 Nat (fun _ => .failure .transport) 0 "u" .transport rfl),
    c3_error_terminates_stream.2.2.1 Nat (fun _ => .failure .transport) 0 5⟩
